import Mathlib

/-!
Shallow embedding of the typed argument encoder of `zbusctl`
(src/lib.rs: `from_str`, `build_dict`, `build_body`).

Strings are Lean `String`s; the splitting primitives of Rust
(`str::splitn`, `str::split`, `str::trim`) are modelled on `List Char`.
Machine integers are modelled as `Int`/`Nat` with explicit range checks,
mirroring Rust `FromStr` for the fixed-width integer types.
A Rust panic (out-of-bounds index) is a distinct outcome, separate from
a returned error.
-/

namespace Zbusctl

/-- Splits a character list at the first occurrence of `c`: the model of
finding the first separator for Rust `str::splitn`. Returns `none` when
`c` does not occur. -/
def breakAtChar (c : Char) : List Char → Option (List Char × List Char)
  | [] => none
  | x :: xs =>
    if x = c then some ([], xs)
    else (breakAtChar c xs).map (fun p => (x :: p.1, p.2))

/-- Model of Rust `str::splitn(n, c)`: at most `n` pieces, the last piece
holding the unsplit remainder. -/
def splitnChar : Nat → Char → List Char → List (List Char)
  | 0, _, _ => []
  | 1, _, l => [l]
  | n + 2, c, l =>
    match breakAtChar c l with
    | none => [l]
    | some p => p.1 :: splitnChar (n + 1) c p.2

/-- Model of Rust `str::split(c)`: splits at every occurrence of `c`;
the empty string yields one empty piece. -/
def splitChar (c : Char) : List Char → List (List Char)
  | [] => [[]]
  | x :: xs =>
    if x = c then [] :: splitChar c xs
    else
      match splitChar c xs with
      | [] => [[x]]
      | h :: t => (x :: h) :: t

/-- Model of Rust `str::trim`: drops whitespace on both ends. -/
def trimChars (l : List Char) : List Char :=
  ((l.dropWhile Char.isWhitespace).reverse.dropWhile Char.isWhitespace).reverse

/-- Accumulates decimal digits; fails on any non-digit character. -/
def decDigitsAux : List Char → Nat → Option Nat
  | [], acc => some acc
  | c :: cs, acc =>
    if c.isDigit then decDigitsAux cs (acc * 10 + (c.toNat - 48)) else none

/-- A non-empty all-digit character list read as a natural number;
models the digit body of Rust integer `FromStr`. -/
def decDigits : List Char → Option Nat
  | [] => none
  | c :: cs => decDigitsAux (c :: cs) 0

/-- Model of Rust `uN::from_str`: optional leading `+`, then one or more
decimal digits, value below `2 ^ bits`. -/
def parseUnsignedChars (bits : Nat) (l : List Char) : Option Nat :=
  let body := match l with
    | '+' :: rest => rest
    | _ => l
  match decDigits body with
  | none => none
  | some n => if n < 2 ^ bits then some n else none

/-- Model of Rust `iN::from_str`: optional sign, then one or more decimal
digits, value in `[-2 ^ (bits - 1), 2 ^ (bits - 1) - 1]`. -/
def parseSignedChars (bits : Nat) (l : List Char) : Option Int :=
  match l with
  | '-' :: rest =>
    match decDigits rest with
    | none => none
    | some n => if n ≤ 2 ^ (bits - 1) then some (-(n : Int)) else none
  | '+' :: rest =>
    match decDigits rest with
    | none => none
    | some n => if n < 2 ^ (bits - 1) then some (n : Int) else none
  | _ =>
    match decDigits l with
    | none => none
    | some n => if n < 2 ^ (bits - 1) then some (n : Int) else none

/-- Model of Rust `bool::from_str`: exactly `true` or `false`. -/
def parseBoolChars (l : List Char) : Option Bool :=
  if l = "true".data then some true
  else if l = "false".data then some false
  else none

/-- Modelled from the spec: the canonical textual encoding of the
double-precision kind (the actual parser is Rust `f64::from_str`, which is
standard-library code not in this repository). Accepts an optional sign
and a decimal number with an optional fractional part; the value is kept
as a rational, ignoring rounding to binary floating point. -/
def parseF64Chars (l : List Char) : Option Rat :=
  let withSign : List Char → Option Rat := fun body =>
    match breakAtChar '.' body with
    | none => (decDigits body).map (fun n => (n : Rat))
    | some p =>
      match decDigits p.1, p.2 with
      | some n, [] => some (n : Rat)
      | some n, fs =>
        (decDigits fs).map (fun f => (n : Rat) + (f : Rat) / ((10 : Rat) ^ fs.length))
      | none, _ => none
  match l with
  | '-' :: rest => (withSign rest).map (fun q => -q)
  | '+' :: rest => withSign rest
  | _ => withSign l

/-- A character allowed inside a D-Bus object-path element. -/
def pathElemChar (c : Char) : Bool :=
  c.isAlpha || c.isDigit || c = '_'

/-- Every element is non-empty and made of allowed characters. -/
def pathElemsOk (ls : List (List Char)) : Bool :=
  ls.all (fun l => !l.isEmpty && l.all pathElemChar)

/-- Modelled from the spec: D-Bus object-path well-formedness, which the
encoder delegates to the external protocol library (`ObjectPath::try_from`).
A path is `/`, or starts with `/` followed by non-empty `/`-separated
elements of `[A-Za-z0-9_]`, with no trailing slash. -/
def objectPathOk (s : String) : Bool :=
  match s.data with
  | '/' :: rest =>
    if rest.isEmpty then true else pathElemsOk (splitChar '/' rest)
  | _ => false

/-- A single-character D-Bus type code. -/
def basicSigChar (c : Char) : Bool :=
  c ∈ ['y', 'b', 'n', 'q', 'i', 'u', 'x', 't', 'd', 's', 'o', 'g', 'h', 'v']

mutual

/-- Consumes one complete D-Bus type from the front; fuel bounds recursion. -/
def sigOne : Nat → List Char → Option (List Char)
  | 0, _ => none
  | _ + 1, [] => none
  | fuel + 1, c :: rest =>
    if basicSigChar c then some rest
    else if c = 'a' then sigOne fuel rest
    else if c = '(' then sigStructBody fuel rest
    else if c = '{' then
      match rest with
      | k :: r2 =>
        if basicSigChar k then
          match sigOne fuel r2 with
          | some ('}' :: r3) => some r3
          | _ => none
        else none
      | [] => none
    else none

/-- Consumes one or more complete types followed by `)`. -/
def sigStructBody : Nat → List Char → Option (List Char)
  | 0, _ => none
  | fuel + 1, l =>
    match sigOne fuel l with
    | none => none
    | some (')' :: r) => some r
    | some r => sigStructBody fuel r

end

/-- Consumes a whole sequence of complete types. -/
def sigAll : Nat → List Char → Bool
  | _, [] => true
  | 0, _ => false
  | fuel + 1, l =>
    match sigOne fuel l with
    | none => false
    | some r => sigAll fuel r

/-- Modelled from the spec: D-Bus type-signature well-formedness, which the
encoder delegates to the external protocol library (`Signature::try_from`).
A signature is a sequence of complete types over the basic codes, arrays,
structs and dict entries. -/
def signatureOk (s : String) : Bool :=
  sigAll (2 * s.data.length + 2) s.data

/-- The closed set of scalar kinds of the encoder. -/
inductive ScalarKind
  | int32
  | uint32
  | int64
  | uint64
  | int16
  | uint16
  | byte
  | double
  | boolean
  | string
  | objpath
  | signature
deriving DecidableEq

/-- A parsed scalar value; integers carry their mathematical value, the
range having been checked at parse time. -/
inductive Scalar
  | i32 (v : Int)
  | u32 (v : Nat)
  | i64 (v : Int)
  | u64 (v : Nat)
  | i16 (v : Int)
  | u16 (v : Nat)
  | byte (v : Nat)
  | f64 (v : Rat)
  | b (v : Bool)
  | str (s : String)
  | opath (s : String)
  | sig (s : String)
deriving DecidableEq

/-- A field of the message body: a scalar, a homogeneous array, or a
string-keyed dictionary. -/
inductive Value
  | scalar (s : Scalar)
  | array (k : ScalarKind) (elems : List Scalar)
  | dict (vk : ScalarKind) (entries : List (String × Scalar))
deriving DecidableEq

/-- The distinct error shapes of `build_body`; each constructor stands for
one of the `zbus::Error::Failure` format strings of the source. -/
inductive EncodeError
  | invalidValue (ty : String) (raw : String)
  | invalidSig (raw : String)
  | invalidPath (raw : String)
  | invalidArraySpec (raw : String)
  | unsupportedElementType (tag : String)
  | invalidDictSpec (raw : String)
  | oddPairCount (raw : String)
  | unsupportedDictTypes (keyType valueType : String)
  | unsupportedType (tag : String)
  | emptyStructure
deriving DecidableEq

/-- The outcome of running the encoder: a value, a returned error, or a
Rust panic (an out-of-bounds index). -/
inductive Outcome (α : Type)
  | ok (val : α)
  | error (e : EncodeError)
  | panic
deriving DecidableEq

/-- The `from_str` dispatch of src/lib.rs for one scalar kind: numeric and
boolean kinds via their `FromStr` models, `string` verbatim, object paths
and signatures via the delegated validators. The `ty` name carried by the
error is Rust `type_name::<T>()`. -/
def parseScalar (k : ScalarKind) (s : String) : Except EncodeError Scalar :=
  match k with
  | .int32 =>
    match parseSignedChars 32 s.data with
    | some n => .ok (.i32 n)
    | none => .error (.invalidValue "i32" s)
  | .uint32 =>
    match parseUnsignedChars 32 s.data with
    | some n => .ok (.u32 n)
    | none => .error (.invalidValue "u32" s)
  | .int64 =>
    match parseSignedChars 64 s.data with
    | some n => .ok (.i64 n)
    | none => .error (.invalidValue "i64" s)
  | .uint64 =>
    match parseUnsignedChars 64 s.data with
    | some n => .ok (.u64 n)
    | none => .error (.invalidValue "u64" s)
  | .int16 =>
    match parseSignedChars 16 s.data with
    | some n => .ok (.i16 n)
    | none => .error (.invalidValue "i16" s)
  | .uint16 =>
    match parseUnsignedChars 16 s.data with
    | some n => .ok (.u16 n)
    | none => .error (.invalidValue "u16" s)
  | .byte =>
    match parseUnsignedChars 8 s.data with
    | some n => .ok (.byte n)
    | none => .error (.invalidValue "u8" s)
  | .double =>
    match parseF64Chars s.data with
    | some q => .ok (.f64 q)
    | none => .error (.invalidValue "f64" s)
  | .boolean =>
    match parseBoolChars s.data with
    | some v => .ok (.b v)
    | none => .error (.invalidValue "bool" s)
  | .string => .ok (.str s)
  | .objpath =>
    if objectPathOk s then .ok (.opath s) else .error (.invalidPath s)
  | .signature =>
    if signatureOk s then .ok (.sig s) else .error (.invalidSig s)

/-- The scalar arms of the top-level `match type_name` in `build_body`. -/
def scalarTagKind (t : String) : Option ScalarKind :=
  if t = "int32" then some .int32
  else if t = "uint32" then some .uint32
  else if t = "int64" then some .int64
  else if t = "uint64" then some .uint64
  else if t = "int16" then some .int16
  else if t = "uint16" then some .uint16
  else if t = "byte" then some .byte
  else if t = "double" then some .double
  else if t = "boolean" then some .boolean
  else if t = "bool" then some .boolean
  else if t = "signature" then some .signature
  else if t = "objpath" then some .objpath
  else if t = "string" then some .string
  else none

/-- The arms of the `match element_type` inside the `array` branch. -/
def arrayElemKind (t : String) : Option ScalarKind :=
  if t = "int32" then some .int32
  else if t = "uint32" then some .uint32
  else if t = "int64" then some .int64
  else if t = "uint64" then some .uint64
  else if t = "int16" then some .int16
  else if t = "uint16" then some .uint16
  else if t = "byte" then some .byte
  else if t = "double" then some .double
  else if t = "boolean" then some .boolean
  else if t = "bool" then some .boolean
  else if t = "string" then some .string
  else if t = "objpath" then some .objpath
  else if t = "signature" then some .signature
  else none

/-- The arms of the `match (key_type, value_type)` inside the `dict`
branch: only string keys, and only the listed value kinds (object paths
and signatures are deliberately absent). -/
def dictValueKind (kt vt : String) : Option ScalarKind :=
  if kt = "string" then
    if vt = "int32" then some .int32
    else if vt = "uint32" then some .uint32
    else if vt = "int64" then some .int64
    else if vt = "uint64" then some .uint64
    else if vt = "int16" then some .int16
    else if vt = "uint16" then some .uint16
    else if vt = "byte" then some .byte
    else if vt = "double" then some .double
    else if vt = "boolean" then some .boolean
    else if vt = "bool" then some .boolean
    else if vt = "string" then some .string
    else none
  else none

/-- Model of `HashMap::insert` on an association list: replaces the value
of an existing key in place, otherwise appends the new entry. -/
def insertDict (m : List (String × Scalar)) (k : String) (v : Scalar) :
    List (String × Scalar) :=
  if m.any (fun p => p.1 = k) then
    m.map (fun p => if p.1 = k then (k, v) else p)
  else m ++ [(k, v)]

/-- `build_dict` of src/lib.rs at the key type `String` (the only key type
reachable from `build_body`): walks the flat list two at a time, the key
taken verbatim (`String::from_str` is infallible), the value parsed with
`parseScalar vk`; an odd trailing chunk indexes `chunk[1]` out of bounds
and panics. -/
def build_dict (vk : ScalarKind) :
    List (List Char) → List (String × Scalar) → Outcome (List (String × Scalar))
  | [], acc => .ok acc
  | kRaw :: vRaw :: rest, acc =>
    match parseScalar vk ⟨vRaw⟩ with
    | .error e => .error e
    | .ok v => build_dict vk rest (insertDict acc ⟨kRaw⟩ v)
  | [_], _ => .panic

/-- The per-element loop of the `array` branch: each raw element is
trimmed, then parsed at the element kind; the first failure aborts. -/
def parseArrayElems (k : ScalarKind) : List (List Char) → Except EncodeError (List Scalar)
  | [] => .ok []
  | v :: rest =>
    match parseScalar k ⟨trimChars v⟩ with
    | .error e => .error e
    | .ok s =>
      match parseArrayElems k rest with
      | .error e => .error e
      | .ok tail => .ok (s :: tail)

/-- The `array` arm of `build_body`: split the rest at the first `:` into
element type and values, split the values at every `,`, and parse each
trimmed element. -/
def processArray (value : String) : Outcome Value :=
  match splitnChar 2 ':' value.data with
  | [et, vls] =>
    let raws := splitChar ',' vls
    match arrayElemKind ⟨et⟩ with
    | some k =>
      match parseArrayElems k raws with
      | .ok elems => .ok (.array k elems)
      | .error e => .error e
    | none => .error (.unsupportedElementType ⟨et⟩)
  | _ => .error (.invalidArraySpec value)

/-- The `dict` arm of `build_body`: split the rest at the first two `:`
into key type, value type and pair list, check the even pair count, then
dispatch on the type combination and build the dictionary. -/
def processDict (value : String) : Outcome Value :=
  match splitnChar 3 ':' value.data with
  | [kt, vt, ps] =>
    let pairs := splitChar ',' ps
    if pairs.length % 2 ≠ 0 then .error (.oddPairCount value)
    else
      match dictValueKind ⟨kt⟩ ⟨vt⟩ with
      | some vk =>
        match build_dict vk pairs [] with
        | .ok entries => .ok (.dict vk entries)
        | .error e => .error e
        | .panic => .panic
      | none => .error (.unsupportedDictTypes ⟨kt⟩ ⟨vt⟩)
  | _ => .error (.invalidDictSpec value)

/-- The whole `match type_name` of `build_body` for one token already
split into tag and payload. -/
def dispatchArg (ty : String) (value : String) : Outcome Value :=
  match scalarTagKind ty with
  | some k =>
    match parseScalar k value with
    | .ok v => .ok (.scalar v)
    | .error e => .error e
  | none =>
    if ty = "array" then processArray value
    else if ty = "dict" then processDict value
    else .error (.unsupportedType ty)

/-- One iteration of the `for arg in args` loop: `splitn(2, ':')` followed
by the indexing `(splits[0], splits[1])`; with no `:` present the index
`splits[1]` is out of bounds and the program panics. -/
def processArg (arg : String) : Outcome Value :=
  match splitnChar 2 ':' arg.data with
  | [t, v] => dispatchArg ⟨t⟩ ⟨v⟩
  | _ => .panic

/-- The `for` loop of `build_body`: fields in input order, the first error
or panic short-circuiting. -/
def processArgs : List String → Outcome (List Value)
  | [] => .ok []
  | a :: rest =>
    match processArg a with
    | .ok v =>
      match processArgs rest with
      | .ok vs => .ok (v :: vs)
      | .error e => .error e
      | .panic => .panic
    | .error e => .error e
    | .panic => .panic

/-- `build_body` of src/lib.rs. The final `builder.build()?` step is the
external `StructureBuilder`, whose fallible build rejects an empty
structure; on a non-empty token list it passes the fields through. -/
def build_body (args : List String) : Outcome (List Value) :=
  match processArgs args with
  | .ok [] => .error .emptyStructure
  | r => r

/-- Association-list lookup: the first entry with the given key. -/
def lookupAssoc (k : String) : List (String × Scalar) → Option Scalar
  | [] => none
  | p :: rest => if p.1 = k then some p.2 else lookupAssoc k rest

/-- Consecutive non-overlapping pairs of a list; a trailing odd element is
not paired. -/
def chunks2 {α : Type} : List α → List (α × α)
  | a :: b :: rest => (a, b) :: chunks2 rest
  | _ => []

/-- The value of a successful parse, `none` on error. -/
def okValue : Except EncodeError Scalar → Option Scalar
  | .ok s => some s
  | .error _ => none

/-- The value the dictionary should associate with `key`: the parse of the
value of the last pair listing that key, walking the pairs left to right. -/
def lastValueFor (vk : ScalarKind) (key : String) (pairs : List (List Char)) :
    Option Scalar :=
  (chunks2 pairs).foldl
    (fun acc p =>
      if (⟨p.1⟩ : String) = key then okValue (parseScalar vk ⟨p.2⟩) else acc)
    none

theorem splitnChar_add_two (n : Nat) (c : Char) (l : List Char) :
    splitnChar (n + 2) c l =
      match breakAtChar c l with
      | none => [l]
      | some p => p.1 :: splitnChar (n + 1) c p.2 := rfl

theorem breakAtChar_append (c : Char) (t v : List Char) (h : c ∉ t) :
    breakAtChar c (t ++ c :: v) = some (t, v) := by
  induction t with
  | nil => simp [breakAtChar]
  | cons x xs ih =>
    simp only [List.mem_cons, not_or] at h
    simp [breakAtChar, Ne.symm h.1, ih h.2]

theorem splitn2_append (c : Char) (t v : List Char) (h : c ∉ t) :
    splitnChar 2 c (t ++ c :: v) = [t, v] := by
  rw [splitnChar_add_two 0 c (t ++ c :: v), breakAtChar_append c t v h]
  rfl

theorem splitn2_none (c : Char) (l : List Char) (h : breakAtChar c l = none) :
    splitnChar 2 c l = [l] := by
  rw [splitnChar_add_two 0 c l, h]

theorem token_data (tag v : String) :
    (tag ++ ":" ++ v).data = tag.data ++ ':' :: v.data := by
  have hc : (":" : String).data = [':'] := rfl
  simp [String.data_append, hc]

theorem scalarTagKind_no_colon (tag : String) (k : ScalarKind)
    (h : scalarTagKind tag = some k) : ':' ∉ tag.data := by
  intro hmem
  have hne : ∀ s : String, ':' ∉ s.data → ¬ tag = s := fun s hs heq => hs (heq ▸ hmem)
  simp only [scalarTagKind,
    if_neg (hne "int32" (by decide)), if_neg (hne "uint32" (by decide)),
    if_neg (hne "int64" (by decide)), if_neg (hne "uint64" (by decide)),
    if_neg (hne "int16" (by decide)), if_neg (hne "uint16" (by decide)),
    if_neg (hne "byte" (by decide)), if_neg (hne "double" (by decide)),
    if_neg (hne "boolean" (by decide)), if_neg (hne "bool" (by decide)),
    if_neg (hne "signature" (by decide)), if_neg (hne "objpath" (by decide)),
    if_neg (hne "string" (by decide))] at h
  exact Option.noConfusion h

theorem processArg_token (tag v : String) (hnc : ':' ∉ tag.data) :
    processArg (tag ++ ":" ++ v) = dispatchArg tag v := by
  unfold processArg
  rw [token_data, splitn2_append ':' tag.data v.data hnc]


/-- Claim C1: a token with no `:` does not produce the malformed-token
error the spec requires: `splitn(2, ':')` yields a single piece and the
unconditional index `splits[1]` is out of bounds, so `build_body` panics
at the first such token, whatever follows it. -/
theorem no_colon_token_panics (arg : String) (rest : List String)
    (h : breakAtChar ':' arg.data = none) :
    build_body (arg :: rest) = .panic := by
  have h1 : processArg arg = .panic := by
    unfold processArg
    rw [splitn2_none ':' arg.data h]
  simp [build_body, processArgs, h1]

/-- Witness for C1 at the concrete token `int32` (no colon). -/
theorem no_colon_token_panics_witness : build_body ["int32"] = .panic :=
  no_colon_token_panics "int32" [] (by decide)

/-- Claim C4: a scalar token `K:V` whose value parses at kind `K` encodes
to exactly one field holding that parse. -/
theorem scalar_token_single_field (tag v : String) (k : ScalarKind) (val : Scalar)
    (htag : scalarTagKind tag = some k) (hv : parseScalar k v = .ok val) :
    build_body [tag ++ ":" ++ v] = .ok [Value.scalar val] := by
  have h1 : processArg (tag ++ ":" ++ v) = .ok (.scalar val) := by
    rw [processArg_token tag v (scalarTagKind_no_colon tag k htag)]
    simp [dispatchArg, htag, hv]
  simp [build_body, processArgs, h1]

/-- Witness for C4 at the concrete token `int32:7`. -/
theorem scalar_token_single_field_witness :
    build_body ["int32" ++ ":" ++ "7"] = .ok [Value.scalar (Scalar.i32 7)] :=
  scalar_token_single_field "int32" "7" .int32 (.i32 7) (by decide) rfl


theorem dispatchArg_dict (v : String) : dispatchArg "dict" v = processDict v := rfl

theorem build_body_single_error (a : String) (e : EncodeError)
    (h : processArg a = .error e) : build_body [a] = .error e := by
  simp [build_body, processArgs, h]

theorem build_body_single_ok (a : String) (v : Value)
    (h : processArg a = .ok v) : build_body [a] = .ok [v] := by
  simp [build_body, processArgs, h]

/-- Claim C6: a dict token whose flat pair list has odd length fails with
the odd-pair-count error, whatever the key type, value type and pair
contents are — the parity check runs before any key or value is parsed. -/
theorem dict_odd_pair_count (rest : String) (kt vt ps : List Char)
    (hsplit : splitnChar 3 ':' rest.data = [kt, vt, ps])
    (hodd : (splitChar ',' ps).length % 2 = 1) :
    build_body ["dict" ++ ":" ++ rest] = .error (.oddPairCount rest) := by
  have h1 : processArg ("dict" ++ ":" ++ rest) = .error (.oddPairCount rest) := by
    rw [processArg_token "dict" rest (by decide), dispatchArg_dict]
    unfold processDict
    rw [hsplit]
    simp [hodd]
  exact build_body_single_error _ _ h1

/-- Witness for C6 at the five-element token
`dict:string:int32:"a",1,"b"`. -/
theorem dict_odd_pair_count_witness :
    build_body ["dict" ++ ":" ++ "string:int32:\"a\",1,\"b\""] =
      .error (.oddPairCount "string:int32:\"a\",1,\"b\"") :=
  dict_odd_pair_count "string:int32:\"a\",1,\"b\"" "string".data "int32".data
    "\"a\",1,\"b\"".data (by decide) (by decide)

/-- Counterexample for C7: at `dict:float:int32:x` the type combination is
unsupported, yet the encoder reports the odd-pair-count error, because the
parity check runs first; the unsupported-dictionary-types error never
appears. -/
theorem dict_unsupported_types_cex :
    build_body ["dict:float:int32:x"] = .error (.oddPairCount "float:int32:x") ∧
    build_body ["dict:float:int32:x"] ≠
      .error (.unsupportedDictTypes "float" "int32") := by
  constructor
  · decide
  · decide

/-- Claim C7 as amended: a dict token whose flat pair list has even length
and whose (keyType, valueType) combination is unsupported fails with the
unsupported-dictionary-types error carrying both names, whatever the pair
contents are — no key or value is parsed. -/
theorem dict_unsupported_types (rest : String) (kt vt ps : List Char)
    (hsplit : splitnChar 3 ':' rest.data = [kt, vt, ps])
    (heven : (splitChar ',' ps).length % 2 = 0)
    (hunsup : dictValueKind ⟨kt⟩ ⟨vt⟩ = none) :
    build_body ["dict" ++ ":" ++ rest] =
      .error (.unsupportedDictTypes ⟨kt⟩ ⟨vt⟩) := by
  have h1 : processArg ("dict" ++ ":" ++ rest) =
      .error (.unsupportedDictTypes ⟨kt⟩ ⟨vt⟩) := by
    rw [processArg_token "dict" rest (by decide), dispatchArg_dict]
    unfold processDict
    rw [hsplit]
    simp [heven, hunsup]
  exact build_body_single_error _ _ h1

/-- Witness for C7 as amended at the token `dict:float:int32:1.0,1`. -/
theorem dict_unsupported_types_witness :
    build_body ["dict" ++ ":" ++ "float:int32:1.0,1"] =
      .error (.unsupportedDictTypes "float" "int32") :=
  dict_unsupported_types "float:int32:1.0,1" "float".data "int32".data
    "1.0,1".data (by decide) (by decide) (by decide)

/-- Counterexample for C2: dict keys and values are not trimmed — the
value ` 1` (with a leading space) fails integer parsing inside a dict
token, where the claim says it would be trimmed and succeed. -/
theorem dict_elems_not_trimmed_cex :
    build_body ["dict:string:int32:k, 1"] = .error (.invalidValue "i32" " 1") ∧
    build_body ["dict:string:int32:k, 1"] ≠
      .ok [.dict .int32 [("k", .i32 1)]] := by
  constructor
  · decide
  · decide

theorem parseArrayElems_get_trimmed (k : ScalarKind) (raws : List (List Char))
    (elems : List Scalar) (h : parseArrayElems k raws = .ok elems) :
    elems.length = raws.length ∧
      ∀ (i : Nat) (hi : i < raws.length) (hf : i < elems.length),
        parseScalar k ⟨trimChars (raws.get ⟨i, hi⟩)⟩ = .ok (elems.get ⟨i, hf⟩) := by
  induction raws generalizing elems with
  | nil =>
    simp only [parseArrayElems] at h
    cases h
    exact ⟨rfl, fun i hi _ => absurd hi (by simp)⟩
  | cons v rest ih =>
    simp only [parseArrayElems] at h
    cases hs : parseScalar k ⟨trimChars v⟩ with
    | error e => simp only [hs] at h; exact Except.noConfusion h
    | ok s =>
      simp only [hs] at h
      cases ht : parseArrayElems k rest with
      | error e => simp only [ht] at h; exact Except.noConfusion h
      | ok tail =>
        simp only [ht] at h
        cases h
        obtain ⟨hl, hg⟩ := ih tail ht
        refine ⟨by simpa using hl, ?_⟩
        intro i hi hf
        cases i with
        | zero => simpa using hs
        | succ j => exact hg j (by simpa using hi) (by simpa using hf)

theorem build_dict_values_ok (vk : ScalarKind) :
    ∀ (pairs : List (List Char)) (acc entries : List (String × Scalar)),
      build_dict vk pairs acc = .ok entries →
      ∀ p ∈ chunks2 pairs, ∃ s, parseScalar vk ⟨p.2⟩ = .ok s
  | [], _, _, _ => by
    intro p hp
    simp [chunks2] at hp
  | [x], acc, entries, h => by
    simp only [build_dict] at h
    exact Outcome.noConfusion h
  | kRaw :: vRaw :: rest, acc, entries, h => by
    simp only [build_dict] at h
    cases hv : parseScalar vk ⟨vRaw⟩ with
    | error e => simp only [hv] at h; exact Outcome.noConfusion h
    | ok v =>
      simp only [hv] at h
      intro p hp
      simp only [chunks2, List.mem_cons] at hp
      cases hp with
      | inl hpe => subst hpe; exact ⟨v, hv⟩
      | inr hpm => exact build_dict_values_ok vk rest _ entries h p hpm

theorem build_dict_value_error (vk : ScalarKind) (kRaw vRaw : List Char)
    (rest : List (List Char)) (acc : List (String × Scalar)) (e : EncodeError)
    (h : parseScalar vk ⟨vRaw⟩ = .error e) :
    build_dict vk (kRaw :: vRaw :: rest) acc = .error e := by
  simp [build_dict, h]

/-- Claim C2 as amended: every array element is trimmed of surrounding
whitespace and then parsed — the fields of an accepted array are exactly
the parses of the trimmed raw elements, so `array:int32: 1 , 2` succeeds
with `[1, 2]` — while dict keys and values are passed verbatim: every
value chunk of a successfully built dictionary parsed untrimmed, a value
chunk whose verbatim parse fails aborts the dictionary with exactly that
error, and a key keeps its surrounding whitespace. -/
theorem array_elems_trimmed :
    (∀ (k : ScalarKind) (raws : List (List Char)) (elems : List Scalar),
      parseArrayElems k raws = .ok elems →
      elems.length = raws.length ∧
        ∀ (i : Nat) (hi : i < raws.length) (hf : i < elems.length),
          parseScalar k ⟨trimChars (raws.get ⟨i, hi⟩)⟩ = .ok (elems.get ⟨i, hf⟩)) ∧
    (∀ (vk : ScalarKind) (pairs : List (List Char))
      (acc entries : List (String × Scalar)),
      build_dict vk pairs acc = .ok entries →
      ∀ p ∈ chunks2 pairs, ∃ s, parseScalar vk ⟨p.2⟩ = .ok s) ∧
    (∀ (vk : ScalarKind) (kRaw vRaw : List Char) (rest : List (List Char))
      (acc : List (String × Scalar)) (e : EncodeError),
      parseScalar vk ⟨vRaw⟩ = .error e →
      build_dict vk (kRaw :: vRaw :: rest) acc = .error e) ∧
    build_body ["array:int32: 1 , 2"] = .ok [.array .int32 [.i32 1, .i32 2]] ∧
    build_body ["dict:string:int32:k, 1"] = .error (.invalidValue "i32" " 1") ∧
    build_body ["dict:string:int32: k,1"] = .ok [.dict .int32 [(" k", .i32 1)]] ∧
    build_body ["dict:string:int32:k,1"] = .ok [.dict .int32 [("k", .i32 1)]] :=
  ⟨parseArrayElems_get_trimmed, build_dict_values_ok, build_dict_value_error,
    by decide, by decide, by decide, by decide⟩

/-- Witness for C2 as amended: the array part applied to the raw elements
` 1` and ` 2 ` at kind int32 shows the first element parsed after
trimming; the dict part applied to the pair `k`, ` 1` shows the verbatim
spaced value failing with its parse error. -/
theorem array_elems_trimmed_witness :
    parseScalar .int32 ⟨trimChars " 1".data⟩ = .ok (.i32 1) ∧
    build_dict .int32 ["k".data, " 1".data] [] =
      .error (.invalidValue "i32" " 1") := by
  constructor
  · exact (array_elems_trimmed.1 .int32 [" 1".data, " 2 ".data]
      [.i32 1, .i32 2] rfl).2 0 (by decide) (by decide)
  · exact array_elems_trimmed.2.2.1 .int32 "k".data " 1".data [] []
      (.invalidValue "i32" " 1") rfl

/-- Claim C10: for every bare scalar token — every tag of the enumerated
scalar set and every payload — the payload reaches the parser verbatim:
the encoding of `tag:<v>` is exactly the parse of the untouched `v`. So
`int32: 1` fails with a value-conversion error while the same spaced
element inside an array token is trimmed and succeeds. -/
theorem scalar_payload_untrimmed :
    (∀ (tag v : String) (k : ScalarKind), scalarTagKind tag = some k →
      build_body [tag ++ ":" ++ v] =
        match parseScalar k v with
        | .ok s => .ok [Value.scalar s]
        | .error e => .error e) ∧
    build_body ["int32: 1"] = .error (.invalidValue "i32" " 1") ∧
    build_body ["array:int32: 1"] = .ok [.array .int32 [.i32 1]] := by
  refine ⟨?_, by decide, by decide⟩
  intro tag v k htag
  have h1 : processArg (tag ++ ":" ++ v) = dispatchArg tag v :=
    processArg_token tag v (scalarTagKind_no_colon tag k htag)
  cases hp : parseScalar k v with
  | ok s =>
    have h2 : dispatchArg tag v = .ok (.scalar s) := by
      simp [dispatchArg, htag, hp]
    exact build_body_single_ok _ _ (h1.trans h2)
  | error e =>
    have h2 : dispatchArg tag v = .error e := by
      simp [dispatchArg, htag, hp]
    exact build_body_single_error _ _ (h1.trans h2)

/-- Witness for C10 at the tag `uint32` and the spaced payload ` 7`: the
space reaches the unsigned parser and the token fails. -/
theorem scalar_payload_untrimmed_witness :
    build_body ["uint32" ++ ":" ++ " 7"] = .error (.invalidValue "u32" " 7") := by
  have h := scalar_payload_untrimmed.1 "uint32" " 7" .uint32 (by decide)
  exact h.trans (by decide)


theorem processArgs_first_error (pre : List String) (vs : List Value) (t : String)
    (suf : List String) (e : EncodeError)
    (hpre : processArgs pre = .ok vs) (ht : processArg t = .error e) :
    processArgs (pre ++ t :: suf) = .error e := by
  induction pre generalizing vs with
  | nil => simp [processArgs, ht]
  | cons a as ih =>
    rw [List.cons_append]
    simp only [processArgs] at hpre ⊢
    cases hva : processArg a with
    | ok v =>
      simp only [hva] at hpre ⊢
      cases hvas : processArgs as with
      | ok vs2 =>
        rw [ih vs2 hvas]
      | error e2 => simp only [hvas] at hpre; exact Outcome.noConfusion hpre
      | panic => simp only [hvas] at hpre; exact Outcome.noConfusion hpre
    | error e2 => simp only [hva] at hpre; exact Outcome.noConfusion hpre
    | panic => simp only [hva] at hpre; exact Outcome.noConfusion hpre

/-- Claim C3: when every token of a prefix encodes and the next token
fails with error `e`, the whole encode call returns exactly `e`, whatever
tokens follow — no later token is processed and no partial body escapes. -/
theorem first_error_aborts (pre : List String) (vs : List Value) (t : String)
    (suf : List String) (e : EncodeError)
    (hpre : processArgs pre = .ok vs) (ht : processArg t = .error e) :
    build_body (pre ++ t :: suf) = .error e := by
  have h := processArgs_first_error pre vs t suf e hpre ht
  unfold build_body
  rw [h]

/-- Witness for C3: the failing second token of
`["int32:1", "int32:x", "bool:nope"]` yields its error. -/
theorem first_error_aborts_witness :
    build_body ["int32:1", "int32:x", "bool:nope"] =
      .error (.invalidValue "i32" "x") :=
  first_error_aborts ["int32:1"] [Value.scalar (Scalar.i32 1)] "int32:x"
    ["bool:nope"] (EncodeError.invalidValue "i32" "x") (by decide) (by decide)

theorem processArgs_fields (args : List String) (fields : List Value)
    (h : processArgs args = .ok fields) :
    fields.length = args.length ∧
      ∀ (i : Nat) (hi : i < args.length) (hf : i < fields.length),
        processArg (args.get ⟨i, hi⟩) = .ok (fields.get ⟨i, hf⟩) := by
  induction args generalizing fields with
  | nil =>
    simp only [processArgs] at h
    cases h
    exact ⟨rfl, fun i hi _ => absurd hi (by simp)⟩
  | cons a as ih =>
    simp only [processArgs] at h
    cases hva : processArg a with
    | ok v =>
      simp only [hva] at h
      cases hvas : processArgs as with
      | ok vs =>
        simp only [hvas] at h
        cases h
        obtain ⟨hl, hg⟩ := ih vs hvas
        refine ⟨by simpa using hl, ?_⟩
        intro i hi hf
        cases i with
        | zero => simpa using hva
        | succ j =>
          exact hg j (by simpa using hi) (by simpa using hf)
      | error e => simp only [hvas] at h; exact Outcome.noConfusion h
      | panic => simp only [hvas] at h; exact Outcome.noConfusion h
    | error e => simp only [hva] at h; exact Outcome.noConfusion h
    | panic => simp only [hva] at h; exact Outcome.noConfusion h

theorem build_body_ok (args : List String) (fields : List Value)
    (h : build_body args = .ok fields) : processArgs args = .ok fields := by
  unfold build_body at h
  cases hps : processArgs args with
  | ok l =>
    cases l with
    | nil => rw [hps] at h; simp at h
    | cons x xs =>
      rw [hps] at h
      exact (h : Outcome.ok (x :: xs) = Outcome.ok fields)
  | error e => rw [hps] at h; simp at h
  | panic => rw [hps] at h; simp at h

/-- Claim C5: an accepted token sequence yields exactly one field per
token, in token order: the field at each position is the encoding of the
token at the same position. -/
theorem field_order_preserved (args : List String) (fields : List Value)
    (h : build_body args = .ok fields) :
    fields.length = args.length ∧
      ∀ (i : Nat) (hi : i < args.length) (hf : i < fields.length),
        processArg (args.get ⟨i, hi⟩) = .ok (fields.get ⟨i, hf⟩) :=
  processArgs_fields args fields (build_body_ok args fields h)

/-- Witness for C5 at `["int32:1", "string:hi"]`: a two-field body in
input order. -/
theorem field_order_preserved_witness :
    build_body ["int32:1", "string:hi"] =
      .ok [Value.scalar (Scalar.i32 1), Value.scalar (Scalar.str "hi")] ∧
    [Value.scalar (Scalar.i32 1), Value.scalar (Scalar.str "hi")].length =
      ["int32:1", "string:hi"].length :=
  ⟨by decide, (field_order_preserved ["int32:1", "string:hi"]
    [Value.scalar (Scalar.i32 1), Value.scalar (Scalar.str "hi")] (by decide)).1⟩


theorem splitChar_ne_nil (c : Char) (l : List Char) : splitChar c l ≠ [] := by
  cases l with
  | nil => simp [splitChar]
  | cons x xs =>
    simp only [splitChar]
    split
    · simp
    · split <;> simp

theorem parseArrayElems_length (k : ScalarKind) (raws : List (List Char))
    (elems : List Scalar) (h : parseArrayElems k raws = .ok elems) :
    elems.length = raws.length := by
  induction raws generalizing elems with
  | nil =>
    simp only [parseArrayElems] at h
    cases h
    rfl
  | cons v rest ih =>
    simp only [parseArrayElems] at h
    cases hs : parseScalar k ⟨trimChars v⟩ with
    | ok s =>
      simp only [hs] at h
      cases ht : parseArrayElems k rest with
      | ok tail =>
        simp only [ht] at h
        cases h
        simp [ih tail ht]
      | error e => simp only [ht] at h; exact Except.noConfusion h
    | error e => simp only [hs] at h; exact Except.noConfusion h

theorem processArray_array_ne_nil (value : String) (k : ScalarKind)
    (elems : List Scalar) (h : processArray value = .ok (.array k elems)) :
    elems ≠ [] := by
  unfold processArray at h
  split at h
  · rename_i et vls hsp
    cases hk : arrayElemKind ⟨et⟩ with
    | some k2 =>
      simp only [hk] at h
      cases hp : parseArrayElems k2 (splitChar ',' vls) with
      | ok es =>
        simp only [hp] at h
        have hlen := parseArrayElems_length k2 _ es hp
        have hne := splitChar_ne_nil ',' vls
        simp only [Outcome.ok.injEq, Value.array.injEq] at h
        obtain ⟨hk2, hes⟩ := h
        subst hes
        intro hnil
        subst hnil
        simp at hlen
        exact hne (List.length_eq_zero.mp hlen.symm)
      | error e => simp only [hp] at h; exact Outcome.noConfusion h
    | none => simp only [hk] at h; exact Outcome.noConfusion h
  · exact Outcome.noConfusion h

theorem processDict_no_array (value : String) (k : ScalarKind)
    (elems : List Scalar) (h : processDict value = .ok (.array k elems)) :
    False := by
  unfold processDict at h
  split at h
  · rename_i kt vt ps hsp
    by_cases hodd : (splitChar ',' ps).length % 2 ≠ 0
    · simp only [if_pos hodd] at h
      exact Outcome.noConfusion h
    · simp only [if_neg hodd] at h
      cases hdk : dictValueKind ⟨kt⟩ ⟨vt⟩ with
      | some vk =>
        simp only [hdk] at h
        cases hbd : build_dict vk (splitChar ',' ps) [] with
        | ok entries => simp only [hbd] at h; simp at h
        | error e => simp only [hbd] at h; exact Outcome.noConfusion h
        | panic => simp only [hbd] at h; exact Outcome.noConfusion h
      | none => simp only [hdk] at h; exact Outcome.noConfusion h
  · exact Outcome.noConfusion h

theorem processArg_array_ne_nil (a : String) (k : ScalarKind)
    (elems : List Scalar) (h : processArg a = .ok (.array k elems)) :
    elems ≠ [] := by
  unfold processArg at h
  split at h
  · rename_i t v hsp
    unfold dispatchArg at h
    cases hk : scalarTagKind ⟨t⟩ with
    | some k2 =>
      simp only [hk] at h
      cases hp : parseScalar k2 ⟨v⟩ with
      | ok s => simp only [hp] at h; simp at h
      | error e => simp only [hp] at h; exact Outcome.noConfusion h
    | none =>
      simp only [hk] at h
      by_cases ha : (⟨t⟩ : String) = "array"
      · rw [if_pos ha] at h
        exact processArray_array_ne_nil _ k elems h
      · rw [if_neg ha] at h
        by_cases hd : (⟨t⟩ : String) = "dict"
        · rw [if_pos hd] at h
          exact absurd (processDict_no_array _ k elems h) (by simp)
        · rw [if_neg hd] at h
          exact Outcome.noConfusion h
  · exact Outcome.noConfusion h

/-- Claim C9: splitting an array token value list on `,` always yields at
least one raw element, so every array field of an accepted body is
non-empty — an empty array is not expressible. -/
theorem array_fields_nonempty (args : List String) (fields : List Value)
    (k : ScalarKind) (elems : List Scalar)
    (hb : build_body args = .ok fields) (hmem : Value.array k elems ∈ fields) :
    elems ≠ [] := by
  have hp := build_body_ok args fields hb
  obtain ⟨hl, hg⟩ := processArgs_fields args fields hp
  obtain ⟨⟨i, hf⟩, hi⟩ := List.mem_iff_get.mp hmem
  have hia : i < args.length := hl ▸ hf
  have hone := hg i hia hf
  rw [hi] at hone
  exact processArg_array_ne_nil _ k elems hone

/-- Witness for C9: `array:string:` encodes to a one-element string array
holding the empty string. -/
theorem array_fields_nonempty_witness :
    build_body ["array:string:"] = .ok [Value.array .string [Scalar.str ""]] ∧
    ([Scalar.str ""] : List Scalar) ≠ [] :=
  ⟨by decide, array_fields_nonempty ["array:string:"]
    [Value.array .string [Scalar.str ""]] .string [Scalar.str ""]
    (by decide) (by simp)⟩


theorem insertDict_cons_hit (rest : List (String × Scalar)) (k : String)
    (v : Scalar) (p : String × Scalar) (hp : p.1 = k) :
    insertDict (p :: rest) k v =
      (k, v) :: rest.map (fun q => if q.1 = k then (k, v) else q) := by
  simp [insertDict, hp]

theorem insertDict_cons_miss (rest : List (String × Scalar)) (k : String)
    (v : Scalar) (p : String × Scalar) (hp : ¬ p.1 = k) :
    insertDict (p :: rest) k v = p :: insertDict rest k v := by
  by_cases ha : rest.any (fun q => q.1 = k)
  · simp [insertDict, hp, ha]
  · simp [insertDict, hp, ha]

theorem lookupAssoc_map_ne (rest : List (String × Scalar)) (k key : String)
    (v : Scalar) (hne : ¬ k = key) :
    lookupAssoc key (rest.map (fun p => if p.1 = k then (k, v) else p)) =
      lookupAssoc key rest := by
  induction rest with
  | nil => rfl
  | cons p r ih =>
    by_cases hp : p.1 = k
    · have hpk : ¬ p.1 = key := fun hh => hne (hp ▸ hh)
      simp only [List.map_cons, if_pos hp, lookupAssoc]
      rw [if_neg hne, if_neg hpk, ih]
    · simp only [List.map_cons, if_neg hp, lookupAssoc]
      by_cases hpk : p.1 = key
      · rw [if_pos hpk, if_pos hpk]
      · rw [if_neg hpk, if_neg hpk, ih]

theorem lookupAssoc_insertDict (m : List (String × Scalar)) (k key : String)
    (v : Scalar) :
    lookupAssoc key (insertDict m k v) =
      if k = key then some v else lookupAssoc key m := by
  induction m with
  | nil => simp [insertDict, lookupAssoc]
  | cons p rest ih =>
    by_cases hp : p.1 = k
    · rw [insertDict_cons_hit rest k v p hp]
      by_cases hk : k = key
      · subst hk
        simp [lookupAssoc]
      · have hpk : ¬ p.1 = key := fun hh => hk (hp ▸ hh)
        simp only [lookupAssoc, if_neg hk, if_neg hpk,
          lookupAssoc_map_ne rest k key v hk]
    · rw [insertDict_cons_miss rest k v p hp]
      simp only [lookupAssoc, ih]
      by_cases hpk : p.1 = key
      · have hk : ¬ k = key := fun hh => hp (hpk.trans hh.symm)
        rw [if_pos hpk, if_neg hk, if_pos hpk]
      · rw [if_neg hpk, if_neg hpk]

theorem build_dict_lookup (vk : ScalarKind) :
    ∀ (pairs : List (List Char)) (acc entries : List (String × Scalar))
      (key : String),
      build_dict vk pairs acc = .ok entries →
      lookupAssoc key entries =
        (chunks2 pairs).foldl
          (fun a p =>
            if (⟨p.1⟩ : String) = key then okValue (parseScalar vk ⟨p.2⟩) else a)
          (lookupAssoc key acc)
  | [], acc, entries, key, h => by
    simp only [build_dict] at h
    cases h
    rfl
  | [x], acc, entries, key, h => by
    simp only [build_dict] at h
    exact Outcome.noConfusion h
  | kRaw :: vRaw :: rest, acc, entries, key, h => by
    simp only [build_dict] at h
    cases hv : parseScalar vk ⟨vRaw⟩ with
    | error e => simp only [hv] at h; exact Outcome.noConfusion h
    | ok v =>
      simp only [hv] at h
      have ih := build_dict_lookup vk rest (insertDict acc ⟨kRaw⟩ v) entries key h
      rw [ih]
      simp only [chunks2, List.foldl_cons]
      congr 1
      rw [lookupAssoc_insertDict]
      by_cases hk : (⟨kRaw⟩ : String) = key
      · rw [if_pos hk, if_pos hk, hv]
        rfl
      · rw [if_neg hk, if_neg hk]

/-- Claim C8: for a dictionary built from a flat pair list, the value
associated with any key is the parse of the value of the last pair naming
that key — pairs are inserted left to right and a duplicate key
overwrites, without error. -/
theorem dict_last_key_wins (vk : ScalarKind) (pairs : List (List Char))
    (entries : List (String × Scalar)) (key : String)
    (h : build_dict vk pairs [] = .ok entries) :
    lookupAssoc key entries = lastValueFor vk key pairs := by
  have hb := build_dict_lookup vk pairs [] entries key h
  simpa [lastValueFor, lookupAssoc] using hb

/-- Witness for C8 at `dict:string:int32:"a",1,"a",2`: the body holds the
single-entry mapping sending the key `"a"` to 2. -/
theorem dict_last_key_wins_witness :
    build_body ["dict:string:int32:\"a\",1,\"a\",2"] =
      .ok [Value.dict .int32 [("\"a\"", Scalar.i32 2)]] ∧
    lookupAssoc "\"a\"" [("\"a\"", Scalar.i32 2)] = some (Scalar.i32 2) := by
  refine ⟨by decide, ?_⟩
  have h := dict_last_key_wins .int32
      ["\"a\"".data, "1".data, "\"a\"".data, "2".data]
      [("\"a\"", Scalar.i32 2)] "\"a\"" (by decide)
  rw [h]
  decide

end Zbusctl
